import Mathlib

/-!
Verification development for `db/records/operations/group.py`.

The Python module is shallowly embedded:

* Python values that flow through `extract_group_metadata` (None, ints,
  strings, insertion-ordered dicts with string keys) become the inductive
  `PyVal`.  Database column values in the modeled inputs are ints/strings;
  dict keys are strings (column names / metadata field names), matching the
  values that JSON round-trips faithfully.
* Fallible Python expressions become `Except PyError _`;  the error
  constructors name the Python exception class raised.
* Python's `sorted(..., key=f)` first computes the key of every element (as
  CPython does) and then stable-sorts by the keys; the stable sort is
  realized by insertion sort, which produces the identical list whenever all
  keys are mutually comparable, and raises `TypeError` on an incomparable
  pair just as Python's comparison operators do.
* `set(json.dumps(g) for g in ...)` followed by `json.loads` is modeled as
  deduplication of the values themselves under structural (insertion-order
  sensitive) equality: `json.dumps` is injective on the modeled value domain
  and `json.loads` inverts it, so equality of dumps coincides with `PyVal`
  equality.  The arbitrary iteration order of the Python set is determinized
  to first-occurrence order; every theorem proved below about the group
  table (membership, lack of duplicates, ordering by `group_id`) is
  independent of that choice.
-/

/-- Python runtime values relevant to the record-extraction code:
`None`, ints, strings and insertion-ordered dicts with string keys. -/
inductive PyVal where
  | vnone : PyVal
  | vint (n : Int) : PyVal
  | vstr (s : String) : PyVal
  | vdict (entries : List (String × PyVal)) : PyVal
deriving Repr

/-- Structural equality test for `PyVal` (defined by hand because `deriving
DecidableEq` does not handle the nested `List` occurrence). -/
def PyVal.beq : PyVal → PyVal → Bool
  | .vnone, .vnone => true
  | .vint a, .vint b => a == b
  | .vstr a, .vstr b => a == b
  | .vdict a, .vdict b => go a b
  | _, _ => false
where
  go : List (String × PyVal) → List (String × PyVal) → Bool
    | [], [] => true
    | (k₁, v₁) :: r₁, (k₂, v₂) :: r₂ => k₁ == k₂ && v₁.beq v₂ && go r₁ r₂
    | _, _ => false

instance : BEq PyVal := ⟨PyVal.beq⟩

/-- `PyVal.beq` decides structural equality.  Proved by the same nested
recursion scheme as `beq` itself (the `induction` tactic does not support
the nested inductive). -/
def PyVal.beq_iff : (a b : PyVal) → (PyVal.beq a b = true ↔ a = b)
  | .vnone, b => by cases b <;> simp [PyVal.beq]
  | .vint _, b => by cases b <;> simp [PyVal.beq]
  | .vstr _, b => by cases b <;> simp [PyVal.beq]
  | .vdict es, .vnone => by simp [PyVal.beq]
  | .vdict es, .vint _ => by simp [PyVal.beq]
  | .vdict es, .vstr _ => by simp [PyVal.beq]
  | .vdict es, .vdict es' => by
      simpa [PyVal.beq] using go_iff es es'
where
  go_iff : (l₁ l₂ : List (String × PyVal)) → (PyVal.beq.go l₁ l₂ = true ↔ l₁ = l₂)
    | [], [] => by simp [PyVal.beq.go]
    | [], _ :: _ => by simp [PyVal.beq.go]
    | _ :: _, [] => by simp [PyVal.beq.go]
    | (k₁, v₁) :: r₁, (k₂, v₂) :: r₂ => by
        simp [PyVal.beq.go, PyVal.beq_iff v₁ v₂, go_iff r₁ r₂, and_assoc]

instance : DecidableEq PyVal := fun a b =>
  decidable_of_iff (PyVal.beq a b = true) (PyVal.beq_iff a b)

instance : LawfulBEq PyVal where
  eq_of_beq h := (PyVal.beq_iff _ _).mp h
  rfl := (PyVal.beq_iff _ _).mpr rfl

example : PyVal.beq (.vdict [("a", .vnone)]) (.vdict [("a", .vnone)]) = true := rfl
example : (PyVal.vdict [("a", .vnone)]) ≠ (.vdict [("a", .vint 0)]) := by decide

/-- Python exceptions raised by the embedded code paths. -/
inductive PyError where
  | keyError
  | typeError
  | valueError
  | attributeError
deriving DecidableEq, Repr

instance {ε α : Type} [DecidableEq ε] [DecidableEq α] : DecidableEq (Except ε α) := fun a b =>
  match a, b with
  | .error e, .error e' =>
      if h : e = e' then .isTrue (by rw [h]) else .isFalse (by simp [h])
  | .error _, .ok _ => .isFalse (by simp)
  | .ok _, .error _ => .isFalse (by simp)
  | .ok v, .ok v' =>
      if h : v = v' then .isTrue (by rw [h]) else .isFalse (by simp [h])

/-- First-match lookup in an ordered association list (Python dict lookup;
keys of a real dict are unique, so first match is the match). -/
def lookupStr : List (String × PyVal) → String → Option PyVal
  | [], _ => none
  | (k', v) :: rest, k => if k' = k then some v else lookupStr rest k

/-- Python `d.get(k, default)` on a dict represented by its entry list. -/
def lookupD (entries : List (String × PyVal)) (k : String) (d : PyVal) : PyVal :=
  (lookupStr entries k).getD d

/-- Python dict update `d[k] = v` semantics: an existing key keeps its
position and changes its value, a new key is appended (keys of a real dict
are unique, so replacing the first match is replacing the match). -/
def dictSet : List (String × PyVal) → String → PyVal → List (String × PyVal)
  | [], k, v => [(k, v)]
  | (k₁, w) :: rest, k, v =>
      if k₁ = k then (k, v) :: rest else (k₁, w) :: dictSet rest k v

/-- Python dict merge `a | b`: start from `a`, apply `b`'s pairs left to
right with dict-update semantics.  Also models a dict display built from a
list of key/value pairs when applied to `[]`. -/
def dictMerge (a b : List (String × PyVal)) : List (String × PyVal) :=
  b.foldl (fun acc kv => dictSet acc kv.1 kv.2) a

/-- The reserved metadata field name (`MATHESAR_GROUP_METADATA`). -/
def MATHESAR_GROUP_METADATA : String := "__mathesar_group_metadata"

example : lookupStr [("a", .vint 1), ("b", .vnone)] "b" = some .vnone := rfl
example : dictSet [("a", .vint 1)] "a" .vnone = [("a", .vnone)] := rfl
example : dictSet [("a", .vint 1)] "b" .vnone = [("a", .vint 1), ("b", .vnone)] := rfl

/-! ## `extract_group_metadata` (`group.py` lines 172-208) -/

/-- Python value-equality key for `GroupMetadataField.GROUP_ID.value`. -/
def GROUP_ID_KEY : String := "group_id"

/-- `_get_record_pieces(record)` (`group.py` lines 180-197).  Returns the
rewritten row and the raw group object (`group_metadata if group_metadata
else None`, with Python `None` represented as `PyVal.vnone`).  Error cases
mirror the Python evaluation order: subscripting a non-dict record raises
`TypeError`; a record without the data key raises `KeyError`; a non-dict
data section raises `AttributeError` at `.items()`; a non-dict group
metadata object raises `AttributeError` at `.get`; a non-dict pre-existing
metadata section raises `TypeError` at `|`. -/
def getRecordPieces (data_key metadata_key : String) (record : PyVal) :
    Except PyError (PyVal × PyVal) :=
  match record with
  | .vdict rentries =>
      match lookupStr rentries data_key with
      | none => .error .keyError
      | some dataVal =>
          match dataVal with
          | .vdict items =>
              -- `group_metadata = record[data_key].get(MATHESAR_GROUP_METADATA, {})`
              match lookupD items MATHESAR_GROUP_METADATA (.vdict []) with
              | .vdict gentries =>
                  -- `metadata = record.get(metadata_key, {}) | {group_id: ...}`
                  match lookupD rentries metadata_key (.vdict []) with
                  | .vdict mentries =>
                      .ok (
                        .vdict (dictMerge []
                          [(data_key,
                            .vdict (items.filter
                              (fun kv => kv.1 ≠ MATHESAR_GROUP_METADATA))),
                           (metadata_key,
                            .vdict (dictMerge mentries
                              [(GROUP_ID_KEY, lookupD gentries GROUP_ID_KEY .vnone)]))]),
                        if gentries = [] then .vnone else .vdict gentries)
                  | _ => .error .typeError
              | _ => .error .attributeError
          | _ => .error .attributeError
  | _ => .error .typeError

/-- Left-to-right effectful map over a list in `Except`; models a Python
generator being drained (the first raised exception propagates). -/
def exceptMap (f : α → Except PyError β) : List α → Except PyError (List β)
  | [] => .ok []
  | a :: l =>
      match f a with
      | .error e => .error e
      | .ok b =>
          match exceptMap f l with
          | .error e => .error e
          | .ok bs => .ok (b :: bs)

/-- First-occurrence deduplication with an accumulator of already-seen
values; models `set(...)` over the (injectively) serialized group objects,
determinizing the set's iteration order to first occurrence. -/
def dedupAcc (seen : List PyVal) : List PyVal → List PyVal
  | [] => []
  | x :: l => if seen.elem x then dedupAcc seen l else x :: dedupAcc (x :: seen) l

def dedupKeepFirst (l : List PyVal) : List PyVal := dedupAcc [] l

/-- Python subscript `x[k]` with a string key: `KeyError` on a dict without
the key, `TypeError` on any non-dict (including `None`). -/
def pySubscriptStr : PyVal → String → Except PyError PyVal
  | .vdict entries, k =>
      match lookupStr entries k with
      | some v => .ok v
      | none => .error .keyError
  | _, _ => .error .typeError

/-- The sort key function `lambda x: x[GroupMetadataField.GROUP_ID.value]`;
CPython computes keys for all elements before comparing, so the key is
paired with the element. -/
def groupSortKey (g : PyVal) : Except PyError (PyVal × PyVal) :=
  match pySubscriptStr g GROUP_ID_KEY with
  | .error e => .error e
  | .ok k => .ok (k, g)

/-- Python `<` on values: defined within ints and within strings, a
`TypeError` on any other combination. -/
def pyLt : PyVal → PyVal → Except PyError Bool
  | .vint a, .vint b => .ok (decide (a < b))
  | .vstr a, .vstr b => .ok (decide (a < b))
  | _, _ => .error .typeError

/-- Insert a keyed element into an ascending keyed list, after all entries
whose key is not greater (the stable position for an element arriving
later). -/
def insertPair (p : PyVal × PyVal) :
    List (PyVal × PyVal) → Except PyError (List (PyVal × PyVal))
  | [] => .ok [p]
  | q :: rest =>
      match pyLt p.1 q.1 with
      | .error e => .error e
      | .ok true => .ok (p :: q :: rest)
      | .ok false =>
          match insertPair p rest with
          | .error e => .error e
          | .ok out => .ok (q :: out)

/-- Stable ascending sort by key (insertion sort), modeling Python's
`sorted`: identical output on mutually comparable keys, `TypeError` on an
incomparable pair. -/
def sortPairs (acc : List (PyVal × PyVal)) :
    List (PyVal × PyVal) → Except PyError (List (PyVal × PyVal))
  | [] => .ok acc
  | p :: rest =>
      match insertPair p acc with
      | .error e => .error e
      | .ok acc' => sortPairs acc' rest

/-- `extract_group_metadata` (`group.py` lines 172-208).  The two-target
unpacking of `zip(*...)` raises `ValueError` on an empty input; the
`set`/`json.dumps`/`json.loads` deduplication is modeled as first-occurrence
deduplication under structural equality (see the module comment). -/
def extract_group_metadata (record_dictionaries : List PyVal)
    (data_key : String) (metadata_key : String) :
    Except PyError (List PyVal × List PyVal) :=
  match record_dictionaries with
  | [] => .error .valueError
  | _ =>
      match exceptMap (getRecordPieces data_key metadata_key) record_dictionaries with
      | .error e => .error e
      | .ok pieces =>
          -- `record_tup` is `pieces.map Prod.fst`, `group_tup` is
          -- `pieces.map Prod.snd`
          match exceptMap groupSortKey (dedupKeepFirst (pieces.map Prod.snd)) with
          | .error e => .error e
          | .ok keyed =>
              match sortPairs [] keyed with
              | .error e => .error e
              | .ok sortedPairs => .ok (pieces.map Prod.fst, sortedPairs.map Prod.snd)

example :
    extract_group_metadata [] "data" "metadata" = .error .valueError := rfl

example :
    extract_group_metadata [.vdict [("data", .vdict [("a", .vint 1)])]] "data" "metadata"
      = .error .typeError := rfl

example :
    extract_group_metadata
      [.vdict [("data", .vdict [("a", .vint 1),
        (MATHESAR_GROUP_METADATA, .vdict [("group_id", .vint 1)])])]]
      "data" "metadata"
      = .ok ([.vdict [("data", .vdict [("a", .vint 1)]),
                      ("metadata", .vdict [("group_id", .vint 1)])]],
             [.vdict [("group_id", .vint 1)]]) := rfl

/-! ## Concrete evaluation theorems (C1, C9, and counterexamples) -/

/-- C9: `extract_group_metadata` is not total on the empty input: the
two-target unpacking of `zip(*...)` over zero produced pairs raises
`ValueError` instead of returning `([], [])`. -/
theorem extract_on_empty_input_raises (data_key metadata_key : String) :
    extract_group_metadata [] data_key metadata_key = .error .valueError := rfl

/-- C1: the code evaluated at the failing input.  A single record whose data
section lacks the reserved group-metadata field makes `extract_group_metadata`
raise `TypeError` (the row's group piece is `None`, and the group-table
sort's key function subscripts it), contradicting the spec's demand that
such rows are handled defensively, emitted with a defaulted group id, and
merely contribute no group-table entry. -/
theorem extract_missing_metadata_raises :
    extract_group_metadata [.vdict [("data", .vdict [("a", .vint 1)])]]
      "data" "metadata" = .error .typeError := rfl

/-- C2 counterexample: the extractor applied to its own output is not a
no-op.  On a one-row input carrying group metadata the first application
succeeds, but re-applying the extractor to the returned rows (which no
longer contain the reserved field) raises `TypeError` rather than returning
the same rows with an empty group table. -/
theorem extract_not_idempotent_cex :
    extract_group_metadata
        [.vdict [("data", .vdict [("a", .vint 1),
            (MATHESAR_GROUP_METADATA, .vdict [("group_id", .vint 1)])])]]
        "data" "metadata"
      = .ok ([.vdict [("data", .vdict [("a", .vint 1)]),
                      ("metadata", .vdict [("group_id", .vint 1)])]],
             [.vdict [("group_id", .vint 1)]])
    ∧ extract_group_metadata
        [.vdict [("data", .vdict [("a", .vint 1)]),
                 ("metadata", .vdict [("group_id", .vint 1)])]]
        "data" "metadata"
      = .error .typeError
    ∧ extract_group_metadata
        [.vdict [("data", .vdict [("a", .vint 1)]),
                 ("metadata", .vdict [("group_id", .vint 1)])]]
        "data" "metadata"
      ≠ .ok ([.vdict [("data", .vdict [("a", .vint 1)]),
                      ("metadata", .vdict [("group_id", .vint 1)])]], []) :=
  ⟨rfl, rfl, by decide⟩

/-- C3 counterexample: deduplication is not by key-order-insensitive
structural equality.  Two raw group-metadata objects with identical
field/value sets (their entry lists are permutations of each other) but
different key order produce two group-table entries, not one. -/
theorem dedup_key_order_sensitive_cex :
    extract_group_metadata
        [.vdict [("data", .vdict [("x", .vint 1),
            (MATHESAR_GROUP_METADATA,
              .vdict [("group_id", .vint 1), ("count", .vint 2)])])],
         .vdict [("data", .vdict [("x", .vint 2),
            (MATHESAR_GROUP_METADATA,
              .vdict [("count", .vint 2), ("group_id", .vint 1)])])]]
        "data" "metadata"
      = .ok ([.vdict [("data", .vdict [("x", .vint 1)]),
                      ("metadata", .vdict [("group_id", .vint 1)])],
              .vdict [("data", .vdict [("x", .vint 2)]),
                      ("metadata", .vdict [("group_id", .vint 1)])]],
             [.vdict [("group_id", .vint 1), ("count", .vint 2)],
              .vdict [("count", .vint 2), ("group_id", .vint 1)]])
    ∧ List.Perm [("group_id", PyVal.vint 1), ("count", PyVal.vint 2)]
                [("count", PyVal.vint 2), ("group_id", PyVal.vint 1)]
    ∧ [PyVal.vdict [("group_id", .vint 1), ("count", .vint 2)],
       PyVal.vdict [("count", .vint 2), ("group_id", .vint 1)]].length ≠ 1 :=
  ⟨rfl, by decide, by decide⟩

/-! ## `GroupBy` validation, resolution and dispatch (`group.py` lines 28-91) -/

/-- A value stored in `column_list`: a Python `str`, a SQLAlchemy `Column`
(identified by its `.name`), or any other value (which fails the
`type(col) not in (str, Column)` check). -/
inductive ColRef where
  | str (s : String)
  | column (name : String)
  | other
deriving DecidableEq, Repr

/-- The runtime value of the `column_list` field: a `list`, a `tuple`, a
bare `str`, or some other object.  Only the first two pass the
`type(self.column_list) not in (tuple, list)` check. -/
inductive ColumnListVal where
  | list (elems : List ColRef)
  | tuple (elems : List ColRef)
  | str (s : String)
  | other
deriving DecidableEq, Repr

/-- The runtime value of `num_groups`: only an exact `int` passes
`type(self.num_groups) == int` (a `bool` or `float`, even one with a whole
numeric value, does not). -/
inductive NumVal where
  | int (n : Int)
  | float (q : Rat)
  | bool (b : Bool)
  | other
deriving DecidableEq, Repr

def NumVal.isInt : NumVal → Bool
  | .int _ => true
  | _ => false

def ColumnListVal.isListOrTuple : ColumnListVal → Bool
  | .list _ => true
  | .tuple _ => true
  | _ => false

/-- The elements iterated by `for col in self.column_list`; only reached
after the container check has passed, so the non-sequence branches are
dead and default to `[]`. -/
def ColumnListVal.elemsD : ColumnListVal → List ColRef
  | .list l => l
  | .tuple l => l
  | _ => []

def ColRef.isStrOrColumn : ColRef → Bool
  | .str _ => true
  | .column _ => true
  | .other => false

/-- `col if isinstance(col, str) else col.name`; the `.other` branch is dead
after validation and defaults to `""`. -/
def ColRef.refName : ColRef → String
  | .str s => s
  | .column n => n
  | .other => ""

/-- The exceptions of `db.records.exceptions` raised by this module. -/
inductive RecExc where
  | BadGroupFormat
  | InvalidGroupType
  | GroupFieldNotFound
deriving DecidableEq, Repr

/-- The `GroupBy` dataclass (frozen; fields as runtime values). -/
structure GroupBy where
  column_list : ColumnListVal
  group_mode : String := "distinct"
  num_groups : NumVal := .int 12
deriving DecidableEq, Repr

/-- The element loop of `validate` (`group.py` lines 49-53): the first
element that is neither a `str` nor a `Column` raises `BadGroupFormat`. -/
def checkElems : List ColRef → Except RecExc Unit
  | [] => .ok ()
  | c :: rest => if c.isStrOrColumn then checkElems rest else .error .BadGroupFormat

/-- `GroupBy.validate` (`group.py` lines 34-53), with the checks in source
order: container type, `group_mode` membership in
`{mode.value for mode in GroupMode}` = `{distinct, percentile}`, exact-int
`num_groups` under percentile mode, then element types. -/
def GroupBy.validate (g : GroupBy) : Except RecExc Unit :=
  if ¬ g.column_list.isListOrTuple then .error .BadGroupFormat
  else if ¬ (g.group_mode = "distinct" ∨ g.group_mode = "percentile") then
    .error .InvalidGroupType
  else if g.group_mode = "percentile" ∧ ¬ g.num_groups.isInt then
    .error .BadGroupFormat
  else checkElems g.column_list.elemsD

/-- The target table, exposing its set of column names (SQLAlchemy's
`name in table.columns` is a key-membership test). -/
structure SATable where
  columns : List String
deriving DecidableEq, Repr

/-- Modelled from the spec: `create_col_objects` lives in
`db/records/utils.py`, which is not part of the provided source; per spec
§4.1/§6 resolution "returns the ordered sequence of resolved column handles
in the same order as `column_list`", so it maps each reference to the
table's handle for that name (handles are modeled by their names). -/
def create_col_objects (table : SATable) (column_list : List ColRef) : List String :=
  column_list.map ColRef.refName

/-- The membership loop of `get_validated_group_by_columns` (`group.py`
lines 57-62): the first referenced name absent from the table's column set
raises `GroupFieldNotFound`. -/
def checkCols (table : SATable) : List ColRef → Except RecExc Unit
  | [] => .ok ()
  | c :: rest =>
      if c.refName ∈ table.columns then checkCols table rest
      else .error .GroupFieldNotFound

/-- `GroupBy.get_validated_group_by_columns` (`group.py` lines 55-63). -/
def GroupBy.get_validated_group_by_columns (g : GroupBy) (table : SATable) :
    Except RecExc (List String) :=
  match g.validate with
  | .error e => .error e
  | .ok () =>
      match checkCols table g.column_list.elemsD with
      | .error e => .error e
      | .ok () => .ok (create_col_objects table g.column_list.elemsD)

/-- The shape of the query value built by `get_group_augmented_records_query`:
which builder ran and with which arguments. -/
inductive QueryShape where
  | percentile (cols : List String) (num_groups : NumVal)
  | distinct (cols : List String)
deriving DecidableEq, Repr

/-- `get_group_augmented_records_query` (`group.py` lines 73-91): resolve,
then dispatch on `group_mode`, with a defensive `BadGroupFormat("Unknown
error")` else branch. -/
def get_group_augmented_records_query (table : SATable) (group_by : GroupBy) :
    Except RecExc QueryShape :=
  match group_by.get_validated_group_by_columns table with
  | .error e => .error e
  | .ok grouping_columns =>
      if group_by.group_mode = "percentile" then
        .ok (.percentile grouping_columns group_by.num_groups)
      else if group_by.group_mode = "distinct" then
        .ok (.distinct grouping_columns)
      else .error .BadGroupFormat

/-! ## Percentile bucketing (`group.py` lines 108-130)

Only the value-level content of `_get_percentile_range_group_select` is
embedded: the `ranges` list of (predicate, label) pairs driving the SQL
`CASE` expression, with Python's float division `i / num_groups` modeled as
exact division in `ℚ`. -/

/-- The `ranges` list (`group.py` lines 116-125): for `i` in
`range(num_groups)` the pair of the predicate
`cume_dist > i/num_groups AND cume_dist <= (i+1)/num_groups` and the label
`i + 1`.  `range(n)` is empty for `n ≤ 0`. -/
def percentile_ranges (num_groups : Int) : List ((Rat → Bool) × Int) :=
  (List.range num_groups.toNat).map (fun (i : Nat) =>
    (fun c => decide ((i : Rat) / (num_groups : Rat) < c) &&
              decide (c ≤ ((i : Rat) + 1) / (num_groups : Rat)),
     (i : Int) + 1))

/-- SQL `CASE` semantics over an ordered list of (condition, result)
branches: the first branch whose condition holds gives the result, `NULL`
(`none`) if none does. -/
def caseEval (branches : List ((Rat → Bool) × Int)) (c : Rat) : Option Int :=
  match branches with
  | [] => none
  | (p, l) :: rest => if p c then some l else caseEval rest c

/-- The `range_id` value assigned to a row with cumulative distribution `c`
under `num_groups` buckets. -/
def range_id (num_groups : Int) (c : Rat) : Option Int :=
  caseEval (percentile_ranges num_groups) c

example : range_id 4 (1/2 : Rat) = some 2 := by
  norm_num [range_id, percentile_ranges, caseEval, List.range_succ]
example : range_id 4 (1 : Rat) = some 4 := by
  norm_num [range_id, percentile_ranges, caseEval, List.range_succ]
example : range_id 0 (1/2 : Rat) = none := rfl

/-! ## Validation, resolution and dispatch theorems -/

lemma checkElems_ok_iff (l : List ColRef) :
    checkElems l = .ok () ↔ ∀ c ∈ l, c.isStrOrColumn = true := by
  induction l with
  | nil => simp [checkElems]
  | cons c rest ih =>
      by_cases hc : c.isStrOrColumn = true <;> simp [checkElems, hc, ih]

lemma checkElems_bad (l : List ColRef) (h : ∃ c ∈ l, ¬ c.isStrOrColumn = true) :
    checkElems l = .error .BadGroupFormat := by
  induction l with
  | nil => simp at h
  | cons c rest ih =>
      by_cases hc : c.isStrOrColumn = true
      · obtain ⟨d, hd, hbad⟩ := h
        rcases List.mem_cons.mp hd with rfl | hd'
        · exact absurd hc hbad
        · simpa [checkElems, hc] using ih ⟨d, hd', hbad⟩
      · simp [checkElems, hc]

/-- C5: `validate()` raises exactly as specified, with the checks applied in
source order: `BadGroupFormat` for a non-list/tuple container;
`InvalidGroupType` for an unrecognized `group_mode`; `BadGroupFormat` when
percentile mode's `num_groups` is not exactly of `int` type (floats,
including numerically whole ones, and bools fail); `BadGroupFormat` when an
element of `column_list` is neither a `str` nor a `Column`; success
otherwise. -/
theorem validate_spec (g : GroupBy) :
    (¬ g.column_list.isListOrTuple = true → g.validate = .error .BadGroupFormat)
    ∧ (g.column_list.isListOrTuple = true →
        g.group_mode ≠ "distinct" → g.group_mode ≠ "percentile" →
        g.validate = .error .InvalidGroupType)
    ∧ (g.column_list.isListOrTuple = true → g.group_mode = "percentile" →
        ¬ g.num_groups.isInt = true → g.validate = .error .BadGroupFormat)
    ∧ (g.column_list.isListOrTuple = true →
        (g.group_mode = "distinct" ∨ g.group_mode = "percentile") →
        (g.group_mode = "percentile" → g.num_groups.isInt = true) →
        (∃ c ∈ g.column_list.elemsD, ¬ c.isStrOrColumn = true) →
        g.validate = .error .BadGroupFormat)
    ∧ (g.column_list.isListOrTuple = true →
        (g.group_mode = "distinct" ∨ g.group_mode = "percentile") →
        (g.group_mode = "percentile" → g.num_groups.isInt = true) →
        (∀ c ∈ g.column_list.elemsD, c.isStrOrColumn = true) →
        g.validate = .ok ()) := by
  refine ⟨fun h => ?_, fun h₁ h₂ h₃ => ?_, fun h₁ h₂ h₃ => ?_,
          fun h₁ h₂ h₃ h₄ => ?_, fun h₁ h₂ h₃ h₄ => ?_⟩
  · simp [GroupBy.validate, h]
  · simp [GroupBy.validate, h₁, h₂, h₃]
  · simp [GroupBy.validate, h₁, h₂, h₃]
  · have : g.validate = checkElems g.column_list.elemsD := by
      rcases h₂ with h | h <;> simp_all [GroupBy.validate]
    rw [this]
    exact checkElems_bad _ h₄
  · have : g.validate = checkElems g.column_list.elemsD := by
      rcases h₂ with h | h <;> simp_all [GroupBy.validate]
    rw [this]
    exact (checkElems_ok_iff _).mpr h₄

/-- C5 witness, including the spec's own test vector
`GroupSpec(column_list=["a"], group_mode="percentile", num_groups=3.5)`. -/
theorem validate_spec_witness :
    (GroupBy.mk (.list [.str "a"]) "percentile" (.float (7/2))).validate
      = .error .BadGroupFormat
    ∧ (GroupBy.mk (.str "a") "distinct" (.int 12)).validate
      = .error .BadGroupFormat
    ∧ (GroupBy.mk (.list [.str "a"]) "median" (.int 12)).validate
      = .error .InvalidGroupType
    ∧ (GroupBy.mk (.list [.str "a", .other]) "distinct" (.int 12)).validate
      = .error .BadGroupFormat
    ∧ (GroupBy.mk (.list [.str "a", .column "b"]) "percentile" (.int 3)).validate
      = .ok () := by
  refine ⟨?_, ?_, ?_, ?_, ?_⟩
  · exact (validate_spec _).2.2.1 (by decide) rfl (by decide)
  · exact (validate_spec _).1 (by decide)
  · exact (validate_spec _).2.1 (by decide) (by decide) (by decide)
  · exact (validate_spec _).2.2.2.1 (by decide) (.inl rfl) (by decide)
      ⟨.other, by decide, by decide⟩
  · exact (validate_spec _).2.2.2.2 (by decide) (.inr rfl) (fun _ => rfl)
      (by decide)

lemma checkCols_ok_iff (table : SATable) (l : List ColRef) :
    checkCols table l = .ok () ↔ ∀ c ∈ l, c.refName ∈ table.columns := by
  induction l with
  | nil => simp [checkCols]
  | cons c rest ih =>
      by_cases hc : c.refName ∈ table.columns <;> simp [checkCols, hc, ih]

lemma checkCols_missing (table : SATable) (l : List ColRef)
    (h : ∃ c ∈ l, c.refName ∉ table.columns) :
    checkCols table l = .error .GroupFieldNotFound := by
  induction l with
  | nil => simp at h
  | cons c rest ih =>
      by_cases hc : c.refName ∈ table.columns
      · obtain ⟨d, hd, hbad⟩ := h
        rcases List.mem_cons.mp hd with rfl | hd'
        · exact absurd hc hbad
        · simpa [checkCols, hc] using ih ⟨d, hd', hbad⟩
      · simp [checkCols, hc]

/-- C6: resolution always re-runs `validate()` first (its failures are
re-raised unchanged); then a referenced column whose derived name (the
string itself, or the handle's name) is absent from the table's column set
raises `GroupFieldNotFound`; when every referenced name is present it
returns the resolved handles in `column_list` order. -/
theorem resolution_spec (g : GroupBy) (table : SATable) :
    (∀ e, g.validate = .error e →
        g.get_validated_group_by_columns table = .error e)
    ∧ (g.validate = .ok () →
        (∃ c ∈ g.column_list.elemsD, c.refName ∉ table.columns) →
        g.get_validated_group_by_columns table = .error .GroupFieldNotFound)
    ∧ (g.validate = .ok () →
        (∀ c ∈ g.column_list.elemsD, c.refName ∈ table.columns) →
        g.get_validated_group_by_columns table
          = .ok (g.column_list.elemsD.map ColRef.refName)) := by
  refine ⟨fun e he => ?_, fun hv hmiss => ?_, fun hv hall => ?_⟩
  · simp [GroupBy.get_validated_group_by_columns, he]
  · simp [GroupBy.get_validated_group_by_columns, hv,
      checkCols_missing table _ hmiss]
  · simp [GroupBy.get_validated_group_by_columns, hv,
      (checkCols_ok_iff table _).mpr hall, create_col_objects]

/-- C6 witness at a concrete table and specs. -/
theorem resolution_spec_witness :
    (GroupBy.mk (.list [.str "a", .column "b"]) "distinct" (.int 12)).get_validated_group_by_columns
        (SATable.mk ["a", "b", "c"]) = .ok ["a", "b"]
    ∧ (GroupBy.mk (.list [.str "z"]) "distinct" (.int 12)).get_validated_group_by_columns
        (SATable.mk ["a", "b", "c"]) = .error .GroupFieldNotFound
    ∧ (GroupBy.mk (.str "a") "distinct" (.int 12)).get_validated_group_by_columns
        (SATable.mk ["a"]) = .error .BadGroupFormat := by
  refine ⟨?_, ?_, ?_⟩
  · exact (resolution_spec _ _).2.2 (by decide) (by decide)
  · exact (resolution_spec _ _).2.1 (by decide) ⟨.str "z", by decide, by decide⟩
  · exact (resolution_spec _ _).1 .BadGroupFormat ((validate_spec _).1 (by decide))

/-- C10: `validate()` never checks positivity of `num_groups`: percentile
mode succeeds for every exact-int value, zero and negative included
(given an otherwise well-formed spec), and for `num_groups ≤ 0` the
percentile builder's `ranges` list of bucket intervals is empty
(`range(num_groups)` is empty). -/
theorem validate_accepts_nonpositive (elems : List ColRef) (n : Int)
    (helems : ∀ c ∈ elems, c.isStrOrColumn = true) :
    (GroupBy.mk (.list elems) "percentile" (.int n)).validate = .ok ()
    ∧ (n ≤ 0 → percentile_ranges n = []) := by
  constructor
  · exact (validate_spec _).2.2.2.2 rfl (.inr rfl) (fun _ => rfl) helems
  · intro hn
    have : n.toNat = 0 := Int.toNat_of_nonpos hn
    simp [percentile_ranges, this]

/-- C10 witness at `num_groups = -3` and `num_groups = 0`. -/
theorem validate_accepts_nonpositive_witness :
    ((GroupBy.mk (.list [.str "a"]) "percentile" (.int (-3))).validate = .ok ()
      ∧ percentile_ranges (-3) = [])
    ∧ ((GroupBy.mk (.list [.str "a"]) "percentile" (.int 0)).validate = .ok ()
      ∧ percentile_ranges 0 = []) := by
  constructor
  · obtain ⟨h₁, h₂⟩ := validate_accepts_nonpositive [.str "a"] (-3) (by decide)
    exact ⟨h₁, h₂ (by decide)⟩
  · obtain ⟨h₁, h₂⟩ := validate_accepts_nonpositive [.str "a"] 0 (by decide)
    exact ⟨h₁, h₂ le_rfl⟩

/-- C8: after successful resolution the dispatch selects the percentile
builder for `group_mode = "percentile"` and the distinct builder for
`group_mode = "distinct"`; the defensive else branch is unreachable, since
resolution implies validation and validation admits only those two mode
strings. -/
theorem dispatch_spec (table : SATable) (g : GroupBy) (cols : List String)
    (h : g.get_validated_group_by_columns table = .ok cols) :
    (g.group_mode = "percentile"
      ∧ get_group_augmented_records_query table g
          = .ok (.percentile cols g.num_groups))
    ∨ (g.group_mode = "distinct"
      ∧ get_group_augmented_records_query table g
          = .ok (.distinct cols)) := by
  have hv : g.validate = .ok () := by
    by_contra hne
    rcases hres : g.validate with e | u
    · simp [GroupBy.get_validated_group_by_columns, hres] at h
    · exact hne (by rw [hres])
  have hmode : g.group_mode = "distinct" ∨ g.group_mode = "percentile" := by
    by_contra hne
    push_neg at hne
    rw [(validate_spec g).2.1 ?_ hne.1 hne.2] at hv
    · exact Except.noConfusion hv
    · by_contra hcl
      rw [(validate_spec g).1 hcl] at hv
      exact Except.noConfusion hv
  rcases hmode with hm | hm
  · exact .inr ⟨hm, by simp [get_group_augmented_records_query, h, hm]⟩
  · exact .inl ⟨hm, by simp [get_group_augmented_records_query, h, hm]⟩

/-- C8 witness: both dispatch outcomes at concrete inputs. -/
theorem dispatch_spec_witness :
    get_group_augmented_records_query (SATable.mk ["a"])
        (GroupBy.mk (.list [.str "a"]) "percentile" (.int 3))
      = .ok (.percentile ["a"] (.int 3))
    ∧ get_group_augmented_records_query (SATable.mk ["a"])
        (GroupBy.mk (.list [.str "a"]) "distinct" (.int 12))
      = .ok (.distinct ["a"]) := by
  constructor
  · rcases dispatch_spec (SATable.mk ["a"])
        (GroupBy.mk (.list [.str "a"]) "percentile" (.int 3)) ["a"]
        ((resolution_spec _ _).2.2 (by decide) (by decide)) with ⟨_, hq⟩ | ⟨hm, _⟩
    · exact hq
    · exact absurd hm (by decide)
  · rcases dispatch_spec (SATable.mk ["a"])
        (GroupBy.mk (.list [.str "a"]) "distinct" (.int 12)) ["a"]
        ((resolution_spec _ _).2.2 (by decide) (by decide)) with ⟨hm, _⟩ | ⟨_, hq⟩
    · exact absurd hm (by decide)
    · exact hq

/-! ## Percentile bucketing theorems -/

lemma caseEval_eq_of_unique (branches : List ((Rat → Bool) × Int)) (c : Rat) (l : Int)
    (hex : ∃ br ∈ branches, br.1 c = true ∧ br.2 = l)
    (huniq : ∀ br ∈ branches, br.1 c = true → br.2 = l) :
    caseEval branches c = some l := by
  induction branches with
  | nil => simp at hex
  | cons br rest ih =>
      by_cases hp : br.1 c = true
      · simpa [caseEval, hp] using huniq br (List.mem_cons_self _ _) hp
      · obtain ⟨br', hmem, hp', hl⟩ := hex
        rcases List.mem_cons.mp hmem with rfl | hmem'
        · exact absurd hp' hp
        · simpa [caseEval, hp] using
            ih ⟨br', hmem', hp', hl⟩ (fun b hb => huniq b (List.mem_cons_of_mem _ hb))

/-- C7: for every positive integer `num_groups = N` and every cumulative
distribution value `c` in `(0, 1]`, the `CASE` analysis over the `ranges`
list assigns a unique bucket label `b` with `1 ≤ b ≤ N`, characterized by
`(b-1)/N < c ≤ b/N` (each branch `i` of the case is the predicate
`c > i/N AND c ≤ (i+1)/N` with label `i+1`); in particular a value exactly
at an interior boundary `i/N` falls into bucket `i`, not `i+1`. -/
theorem percentile_bucket_spec (N : Int) (hN : 0 < N) (c : Rat)
    (hc0 : 0 < c) (hc1 : c ≤ 1) :
    ∃ b : Int, range_id N c = some b ∧ 1 ≤ b ∧ b ≤ N
      ∧ ((b : Rat) - 1) / (N : Rat) < c ∧ c ≤ (b : Rat) / (N : Rat)
      ∧ (∀ i : Int, 1 ≤ i → i ≤ N → c = (i : Rat) / (N : Rat) → b = i) := by
  have hNQ : (0 : Rat) < (N : Rat) := by exact_mod_cast hN
  have hNne : (N : Rat) ≠ 0 := ne_of_gt hNQ
  set b : Int := ⌈c * (N : Rat)⌉ with hb
  have hcN_pos : (0 : Rat) < c * (N : Rat) := mul_pos hc0 hNQ
  have hb_pos : 1 ≤ b := Int.ceil_pos.mpr hcN_pos
  have hb_le : b ≤ N := Int.ceil_le.mpr (by
    calc c * (N : Rat) ≤ 1 * (N : Rat) := by
          exact mul_le_mul_of_nonneg_right hc1 (le_of_lt hNQ)
      _ = ((N : Int) : Rat) := by ring)
  have hlow : ((b : Rat) - 1) < c * (N : Rat) := by
    have := Int.ceil_lt_add_one (c * (N : Rat))
    rw [← hb] at this
    linarith
  have hhigh : c * (N : Rat) ≤ (b : Rat) := by
    have := Int.le_ceil (c * (N : Rat))
    rw [← hb] at this
    exact this
  refine ⟨b, ?_, hb_pos, hb_le, ?_, ?_, ?_⟩
  · -- range_id N c = some b via the unique matching branch
    apply caseEval_eq_of_unique
    · refine ⟨((fun x => decide (((b - 1).toNat : Rat) / (N : Rat) < x) &&
          decide (x ≤ (((b - 1).toNat : Rat) + 1) / (N : Rat))),
          ((b - 1).toNat : Int) + 1), ?_, ?_, ?_⟩
      · apply List.mem_map_of_mem
        apply List.mem_range.mpr
        rw [Int.lt_toNat]
        rw [Int.toNat_of_nonneg (by omega)]
        omega
      · have hcast : (((b - 1).toNat : Int) : Rat) = (b : Rat) - 1 := by
          rw [Int.toNat_of_nonneg (by omega)]
          push_cast
          ring
        have hcast' : (((b - 1).toNat : Nat) : Rat) = (b : Rat) - 1 := by
          exact_mod_cast hcast
        simp only [Bool.and_eq_true, decide_eq_true_eq, hcast']
        constructor
        · rw [div_lt_iff₀ hNQ]; exact hlow
        · rw [le_div_iff₀ hNQ]; linarith
      · rw [Int.toNat_of_nonneg (by omega)]
        ring
    · rintro ⟨p, l⟩ hmem hp
      simp only [percentile_ranges, List.mem_map, List.mem_range] at hmem
      obtain ⟨i, _, heq⟩ := hmem
      cases heq
      simp only [Bool.and_eq_true, decide_eq_true_eq] at hp
      obtain ⟨h₁, h₂⟩ := hp
      rw [div_lt_iff₀ hNQ] at h₁
      rw [le_div_iff₀ hNQ] at h₂
      have : b = (i : Int) + 1 := by
        rw [hb]
        apply Int.ceil_eq_iff.mpr
        constructor
        · push_cast; linarith
        · push_cast; linarith
      simpa using this.symm
  · rw [div_lt_iff₀ hNQ]; exact hlow
  · rw [le_div_iff₀ hNQ]; exact hhigh
  · intro i hi1 hiN hc
    rw [hb, hc, div_mul_cancel₀ _ hNne]
    exact Int.ceil_intCast i

/-- C7 witness: with two buckets, the boundary value `c = 1/2 = 1/N` falls
into bucket `1`, not bucket `2`. -/
theorem percentile_bucket_spec_witness :
    ∃ b : Int, range_id 2 (1/2 : Rat) = some b ∧ 1 ≤ b ∧ b ≤ 2
      ∧ ((b : Rat) - 1) / (2 : Rat) < 1/2 ∧ (1/2 : Rat) ≤ (b : Rat) / (2 : Rat)
      ∧ (∀ i : Int, 1 ≤ i → i ≤ 2 → (1/2 : Rat) = (i : Rat) / (2 : Rat) → b = i) := by
  have h := percentile_bucket_spec 2 (by norm_num) (1/2 : Rat) (by norm_num) (by norm_num)
  simpa using h

/-! ## Toolkit lemmas for the extraction theorems -/

lemma exceptMap_ok_iff {α β : Type} {f : α → Except PyError β} :
    ∀ {l : List α} {ys : List β},
      exceptMap f l = .ok ys ↔ List.Forall₂ (fun a b => f a = .ok b) l ys := by
  intro l
  induction l with
  | nil =>
      intro ys
      constructor
      · intro h
        simp only [exceptMap, Except.ok.injEq] at h
        rw [← h]
        exact List.Forall₂.nil
      · intro h
        cases h
        rfl
  | cons a rest ih =>
      intro ys
      constructor
      · intro h
        rcases hfa : f a with e | b
        · rw [exceptMap, hfa] at h
          exact absurd h (by simp)
        · rw [exceptMap, hfa] at h
          rcases hrest : exceptMap f rest with e | bs
          · rw [hrest] at h
            exact absurd h (by simp)
          · rw [hrest] at h
            simp only [Except.ok.injEq] at h
            rw [← h]
            exact List.Forall₂.cons hfa (ih.mp hrest)
      · intro h
        cases h with
        | cons hab htail =>
            rw [exceptMap, hab, ih.mpr htail]

lemma exceptMap_mem {α β : Type} {f : α → Except PyError β} {l : List α}
    {ys : List β} (h : exceptMap f l = .ok ys) :
    ∀ y ∈ ys, ∃ a ∈ l, f a = .ok y := by
  have hf := exceptMap_ok_iff.mp h
  clear h
  induction hf with
  | nil => simp
  | cons hab _ ih =>
      intro y hy
      rcases List.mem_cons.mp hy with rfl | hy'
      · exact ⟨_, List.mem_cons_self _ _, hab⟩
      · obtain ⟨a, ha, hfa⟩ := ih y hy'
        exact ⟨a, List.mem_cons_of_mem _ ha, hfa⟩

lemma exceptMap_isOk_of_forall {α β : Type} {f : α → Except PyError β} :
    ∀ {l : List α}, (∀ a ∈ l, ∃ b, f a = .ok b) →
      ∃ ys, exceptMap f l = .ok ys := by
  intro l
  induction l with
  | nil => exact fun _ => ⟨[], rfl⟩
  | cons a rest ih =>
      intro h
      obtain ⟨b, hb⟩ := h a (List.mem_cons_self _ _)
      obtain ⟨bs, hbs⟩ := ih (fun x hx => h x (List.mem_cons_of_mem _ hx))
      exact ⟨b :: bs, by rw [exceptMap, hb, hbs]⟩

lemma exceptMap_forall_isOk {α β : Type} {f : α → Except PyError β}
    {l : List α} {ys : List β} (h : exceptMap f l = .ok ys) :
    ∀ a ∈ l, ∃ b, f a = .ok b := by
  have hf := exceptMap_ok_iff.mp h
  clear h
  induction hf with
  | nil => simp
  | cons hab _ ih =>
      intro a ha
      rcases List.mem_cons.mp ha with rfl | ha'
      · exact ⟨_, hab⟩
      · exact ih a ha'

/-- Success of `exceptMap` is permutation-invariant, and the two result
lists are permutations of each other. -/
lemma exceptMap_perm {α β : Type} {f : α → Except PyError β}
    {l₁ l₂ : List α} (hperm : l₁.Perm l₂) :
    ∀ {y₁ y₂ : List β}, exceptMap f l₁ = .ok y₁ → exceptMap f l₂ = .ok y₂ →
      y₁.Perm y₂ := by
  induction hperm with
  | nil =>
      intro y₁ y₂ h₁ h₂
      simp only [exceptMap, Except.ok.injEq] at h₁ h₂
      rw [← h₁, ← h₂]
  | cons a _ ih =>
      intro y₁ y₂ h₁ h₂
      rcases hfa : f a with e | b
      · rw [exceptMap, hfa] at h₁
        exact absurd h₁ (by simp)
      · rw [exceptMap, hfa] at h₁ h₂
        rcases hr₁ : exceptMap f _ with e | bs₁
        · rw [hr₁] at h₁
          exact absurd h₁ (by simp)
        · rcases hr₂ : exceptMap f _ with e | bs₂
          · rw [hr₂] at h₂
            exact absurd h₂ (by simp)
          · rw [hr₁] at h₁
            rw [hr₂] at h₂
            simp only [Except.ok.injEq] at h₁ h₂
            rw [← h₁, ← h₂]
            exact (ih hr₁ hr₂).cons b
  | swap a b l =>
      intro y₁ y₂ h₁ h₂
      cases hfb : f b with
      | error e =>
          simp only [exceptMap, hfb] at h₁
          exact Except.noConfusion h₁
      | ok vb =>
          cases hfa : f a with
          | error e =>
              simp only [exceptMap, hfb, hfa] at h₁
              exact Except.noConfusion h₁
          | ok va =>
              cases hl : exceptMap f l with
              | error e =>
                  simp only [exceptMap, hfb, hfa, hl] at h₁
                  exact Except.noConfusion h₁
              | ok vs =>
                  simp only [exceptMap, hfb, hfa, hl, Except.ok.injEq] at h₁ h₂
                  rw [← h₁, ← h₂]
                  exact List.Perm.swap va vb vs
  | trans hp₁₂ hp₂₃ ih₁₂ ih₂₃ =>
      intro y₁ y₃ h₁ h₃
      have hmid : ∀ a ∈ _, ∃ b, f a = .ok b :=
        fun a ha => exceptMap_forall_isOk h₁ a (hp₁₂.mem_iff.mpr ha)
      obtain ⟨y₂, h₂⟩ := exceptMap_isOk_of_forall hmid
      exact (ih₁₂ h₁ h₂).trans (ih₂₃ h₂ h₃)

lemma mem_dedupAcc (l : List PyVal) :
    ∀ (seen : List PyVal) (a : PyVal),
      a ∈ dedupAcc seen l ↔ a ∈ l ∧ a ∉ seen := by
  induction l with
  | nil => intro seen a; simp [dedupAcc]
  | cons x rest ih =>
      intro seen a
      by_cases hx : x ∈ seen
      · rw [dedupAcc, if_pos (List.elem_iff.mpr hx), ih]
        constructor
        · exact fun ⟨h₁, h₂⟩ => ⟨List.mem_cons_of_mem _ h₁, h₂⟩
        · rintro ⟨h₁, h₂⟩
          rcases List.mem_cons.mp h₁ with rfl | h₁'
          · exact absurd hx h₂
          · exact ⟨h₁', h₂⟩
      · rw [dedupAcc, if_neg (fun hc => hx (List.elem_iff.mp hc))]
        simp only [List.mem_cons, ih]
        constructor
        · rintro (rfl | ⟨h₁, h₂⟩)
          · exact ⟨.inl rfl, hx⟩
          · exact ⟨.inr h₁, fun hc => h₂ (.inr hc)⟩
        · rintro ⟨rfl | h₁, h₂⟩
          · exact .inl rfl
          · by_cases hax : a = x
            · exact .inl hax
            · exact .inr ⟨h₁, fun hc => hc.elim hax h₂⟩

lemma nodup_dedupAcc (l : List PyVal) :
    ∀ seen : List PyVal, (dedupAcc seen l).Nodup := by
  induction l with
  | nil => intro seen; simp [dedupAcc]
  | cons x rest ih =>
      intro seen
      by_cases hx : x ∈ seen
      · rw [dedupAcc, if_pos (List.elem_iff.mpr hx)]
        exact ih seen
      · rw [dedupAcc, if_neg (fun hc => hx (List.elem_iff.mp hc))]
        refine List.nodup_cons.mpr ⟨fun hc => ?_, ih (x :: seen)⟩
        exact ((mem_dedupAcc rest (x :: seen) x).mp hc).2 (List.mem_cons_self _ _)

lemma mem_dedupKeepFirst {l : List PyVal} {a : PyVal} :
    a ∈ dedupKeepFirst l ↔ a ∈ l := by
  rw [dedupKeepFirst, mem_dedupAcc]
  simp

lemma nodup_dedupKeepFirst (l : List PyVal) : (dedupKeepFirst l).Nodup :=
  nodup_dedupAcc l []

lemma dedupKeepFirst_perm {l₁ l₂ : List PyVal} (h : l₁.Perm l₂) :
    (dedupKeepFirst l₁).Perm (dedupKeepFirst l₂) :=
  (List.perm_ext_iff_of_nodup (nodup_dedupKeepFirst l₁) (nodup_dedupKeepFirst l₂)).mpr
    (fun a => by rw [mem_dedupKeepFirst, mem_dedupKeepFirst, h.mem_iff])

lemma dedupAcc_subset_seen (l : List PyVal) :
    ∀ seen : List PyVal, (∀ x ∈ l, x ∈ seen) → dedupAcc seen l = [] := by
  induction l with
  | nil => intro seen _; rfl
  | cons x rest ih =>
      intro seen h
      rw [dedupAcc, if_pos (List.elem_iff.mpr (h x (List.mem_cons_self _ _)))]
      exact ih seen (fun y hy => h y (List.mem_cons_of_mem _ hy))

/-- A non-empty list all of whose elements are `vnone` dedups to `[vnone]`. -/
lemma dedupKeepFirst_all_vnone {l : List PyVal} (hne : l ≠ [])
    (hall : ∀ x ∈ l, x = .vnone) : dedupKeepFirst l = [.vnone] := by
  cases l with
  | nil => exact absurd rfl hne
  | cons x rest =>
      have hx : x = PyVal.vnone := hall x (List.mem_cons_self _ _)
      subst hx
      rw [dedupKeepFirst, dedupAcc, if_neg (by simp)]
      rw [dedupAcc_subset_seen rest [.vnone] (fun y hy => by
        rw [hall y (List.mem_cons_of_mem _ hy)]; exact List.mem_cons_self _ _)]

/-- Looking up the key just set returns the new value. -/
lemma lookupStr_dictSet_self (m : List (String × PyVal)) (k : String) (v : PyVal) :
    lookupStr (dictSet m k v) k = some v := by
  induction m with
  | nil => simp [dictSet, lookupStr]
  | cons kv rest ih =>
      obtain ⟨k₁, w⟩ := kv
      by_cases hk : k₁ = k
      · simp [dictSet, hk, lookupStr]
      · simp [dictSet, hk, lookupStr, ih]

/-- Setting one key leaves every other key's lookup unchanged. -/
lemma lookupStr_dictSet_ne (m : List (String × PyVal)) (k : String) (v : PyVal)
    (k' : String) (h : k' ≠ k) :
    lookupStr (dictSet m k v) k' = lookupStr m k' := by
  induction m with
  | nil => simp [dictSet, lookupStr, Ne.symm h]
  | cons kv rest ih =>
      obtain ⟨k₁, w⟩ := kv
      by_cases hk : k₁ = k
      · subst hk
        simp [dictSet, lookupStr, Ne.symm h]
      · by_cases hk' : k₁ = k' <;> simp [dictSet, hk, hk', lookupStr, ih, h]

/-- The reserved key is absent from the filtered data section. -/
lemma lookupStr_filter_reserved (items : List (String × PyVal)) :
    lookupStr (items.filter (fun kv => kv.1 ≠ MATHESAR_GROUP_METADATA))
      MATHESAR_GROUP_METADATA = none := by
  induction items with
  | nil => rfl
  | cons kv rest ih =>
      obtain ⟨k₁, w⟩ := kv
      by_cases hk : k₁ = MATHESAR_GROUP_METADATA
      · simpa [List.filter_cons, hk] using ih
      · rw [List.filter_cons, if_pos (by simpa using hk), lookupStr, if_neg hk]
        exact ih

lemma pyLt_asymm {a b : PyVal} (h : pyLt a b = .ok true) :
    pyLt b a = .ok false := by
  cases a <;> cases b <;> simp [pyLt] at h ⊢
  · omega
  · exact le_of_lt h

/-- The ordering invariant maintained by the insertion sort: no element is
strictly below its predecessor (`keyLe a b` reads "b's key is not less than
a's key"). -/
def keyLe (a b : PyVal × PyVal) : Prop := pyLt b.1 a.1 = .ok false

lemma insertPair_perm {p : PyVal × PyVal} :
    ∀ {l out : List (PyVal × PyVal)}, insertPair p l = .ok out →
      out.Perm (p :: l) := by
  intro l
  induction l with
  | nil =>
      intro out h
      simp only [insertPair, Except.ok.injEq] at h
      rw [← h]
  | cons q rest ih =>
      intro out h
      cases hlt : pyLt p.1 q.1 with
      | error e => rw [insertPair, hlt] at h; exact Except.noConfusion h
      | ok b =>
          cases b with
          | true =>
              rw [insertPair, hlt] at h
              simp only [Except.ok.injEq] at h
              rw [← h]
          | false =>
              rw [insertPair, hlt] at h
              cases hrec : insertPair p rest with
              | error e => rw [hrec] at h; exact Except.noConfusion h
              | ok out' =>
                  rw [hrec] at h
                  simp only [Except.ok.injEq] at h
                  rw [← h]
                  exact ((ih hrec).cons q).trans (List.Perm.swap p q rest)

lemma insertPair_chain {p : PyVal × PyVal} :
    ∀ {l out : List (PyVal × PyVal)}, List.Chain' keyLe l →
      insertPair p l = .ok out →
      List.Chain' keyLe out ∧ ∀ q, out.head? = some q → q = p ∨ l.head? = some q := by
  intro l
  induction l with
  | nil =>
      intro out _ h
      simp only [insertPair, Except.ok.injEq] at h
      rw [← h]
      exact ⟨List.chain'_singleton p, fun q hq => .inl (by simpa using hq.symm)⟩
  | cons q rest ih =>
      intro out hc h
      cases hlt : pyLt p.1 q.1 with
      | error e => rw [insertPair, hlt] at h; exact Except.noConfusion h
      | ok b =>
          cases b with
          | true =>
              rw [insertPair, hlt] at h
              simp only [Except.ok.injEq] at h
              rw [← h]
              refine ⟨List.chain'_cons.mpr ⟨pyLt_asymm hlt, hc⟩, fun r hr => ?_⟩
              exact .inl (by simpa using hr.symm)
          | false =>
              rw [insertPair, hlt] at h
              cases hrec : insertPair p rest with
              | error e => rw [hrec] at h; exact Except.noConfusion h
              | ok out' =>
                  rw [hrec] at h
                  simp only [Except.ok.injEq] at h
                  rw [← h]
                  obtain ⟨hout', hhead⟩ := ih hc.tail hrec
                  constructor
                  · refine List.chain'_cons'.mpr ⟨fun r hr => ?_, hout'⟩
                    rcases hhead r hr with rfl | hr'
                    · exact hlt
                    · exact (List.chain'_cons'.mp hc).1 r hr'
                  · intro r hr
                    simp only [List.head?_cons, Option.some.injEq] at hr ⊢
                    exact .inr hr

lemma sortPairs_perm :
    ∀ {l acc out : List (PyVal × PyVal)}, sortPairs acc l = .ok out →
      out.Perm (acc ++ l) := by
  intro l
  induction l with
  | nil =>
      intro acc out h
      simp only [sortPairs, Except.ok.injEq] at h
      rw [← h, List.append_nil]
  | cons p rest ih =>
      intro acc out h
      cases hins : insertPair p acc with
      | error e => rw [sortPairs, hins] at h; exact Except.noConfusion h
      | ok acc' =>
          rw [sortPairs, hins] at h
          exact (ih h).trans
            (((insertPair_perm hins).append_right rest).trans List.perm_middle.symm)

lemma sortPairs_chain :
    ∀ {l acc out : List (PyVal × PyVal)}, List.Chain' keyLe acc →
      sortPairs acc l = .ok out → List.Chain' keyLe out := by
  intro l
  induction l with
  | nil =>
      intro acc out hc h
      simp only [sortPairs, Except.ok.injEq] at h
      rw [← h]
      exact hc
  | cons p rest ih =>
      intro acc out hc h
      cases hins : insertPair p acc with
      | error e => rw [sortPairs, hins] at h; exact Except.noConfusion h
      | ok acc' =>
          rw [sortPairs, hins] at h
          exact ih (insertPair_chain hc hins).1 h

lemma groupSortKey_ok {g : PyVal} {p : PyVal × PyVal}
    (h : groupSortKey g = .ok p) :
    p.2 = g ∧ pySubscriptStr g GROUP_ID_KEY = .ok p.1 := by
  cases hk : pySubscriptStr g GROUP_ID_KEY with
  | error e => rw [groupSortKey, hk] at h; exact Except.noConfusion h
  | ok k =>
      rw [groupSortKey, hk] at h
      simp only [Except.ok.injEq] at h
      rw [← h]
      exact ⟨rfl, rfl⟩

lemma exceptMap_groupSortKey_snd :
    ∀ {l : List PyVal} {ys : List (PyVal × PyVal)},
      exceptMap groupSortKey l = .ok ys → ys.map Prod.snd = l := by
  intro l
  induction l with
  | nil =>
      intro ys h
      simp only [exceptMap, Except.ok.injEq] at h
      rw [← h]
      rfl
  | cons g rest ih =>
      intro ys h
      cases hg : groupSortKey g with
      | error e => rw [exceptMap, hg] at h; exact Except.noConfusion h
      | ok p =>
          rw [exceptMap, hg] at h
          cases hrest : exceptMap groupSortKey rest with
          | error e => rw [hrest] at h; exact Except.noConfusion h
          | ok ps =>
              rw [hrest] at h
              simp only [Except.ok.injEq] at h
              rw [← h, List.map_cons, (groupSortKey_ok hg).1, ih hrest]

/-- Inversion of a successful `getRecordPieces` call. -/
lemma getRecordPieces_ok_elim {dk mk : String} {record : PyVal}
    {out : PyVal × PyVal} (h : getRecordPieces dk mk record = .ok out) :
    ∃ rentries items gentries mentries,
      record = .vdict rentries
      ∧ lookupStr rentries dk = some (.vdict items)
      ∧ lookupD items MATHESAR_GROUP_METADATA (.vdict []) = .vdict gentries
      ∧ lookupD rentries mk (.vdict []) = .vdict mentries
      ∧ out = (.vdict (dictMerge []
            [(dk, .vdict (items.filter (fun kv => kv.1 ≠ MATHESAR_GROUP_METADATA))),
             (mk, .vdict (dictMerge mentries
               [(GROUP_ID_KEY, lookupD gentries GROUP_ID_KEY .vnone)]))]),
          if gentries = [] then .vnone else .vdict gentries) := by
  cases record with
  | vnone => exact Except.noConfusion h
  | vint n => exact Except.noConfusion h
  | vstr s => exact Except.noConfusion h
  | vdict rentries =>
      rw [getRecordPieces] at h
      split at h
      · exact Except.noConfusion h
      · split at h
        · split at h
          · split at h
            · rename_i x₁ x₂ items hd x₃ gentries hgm x₄ mentries hpre
              simp only [Except.ok.injEq] at h
              exact ⟨rentries, items, gentries, mentries, rfl, hd, hgm, hpre,
                h.symm⟩
            · exact Except.noConfusion h
          · exact Except.noConfusion h
        · exact Except.noConfusion h

/-- Inversion of a successful `extract_group_metadata` call into its
intermediate values. -/
lemma extract_ok_elim {records : List PyVal} {dk mk : String}
    {rows gtable : List PyVal}
    (h : extract_group_metadata records dk mk = .ok (rows, gtable)) :
    records ≠ [] ∧
    ∃ pieces keyed sortedPairs,
      exceptMap (getRecordPieces dk mk) records = .ok pieces
      ∧ rows = pieces.map Prod.fst
      ∧ exceptMap groupSortKey (dedupKeepFirst (pieces.map Prod.snd)) = .ok keyed
      ∧ sortPairs [] keyed = .ok sortedPairs
      ∧ gtable = sortedPairs.map Prod.snd := by
  cases records with
  | nil => exact Except.noConfusion h
  | cons r rest =>
      rw [extract_group_metadata] at h
      · split at h
        · exact Except.noConfusion h
        · split at h
          · exact Except.noConfusion h
          · split at h
            · exact Except.noConfusion h
            · rename_i x₁ pieces hp x₂ keyed hk x₃ sortedPairs hs
              simp only [Except.ok.injEq, Prod.mk.injEq] at h
              exact ⟨by simp, pieces, keyed, sortedPairs, hp, h.1.symm, hk, hs,
                h.2.symm⟩
      · simp

/-- Forward evaluation of `extract_group_metadata` when the sort's key
extraction fails. -/
lemma extract_error_of_keyed {records : List PyVal} {dk mk : String}
    {pieces : List (PyVal × PyVal)} {e : PyError}
    (hne : records ≠ [])
    (hp : exceptMap (getRecordPieces dk mk) records = .ok pieces)
    (hk : exceptMap groupSortKey (dedupKeepFirst (pieces.map Prod.snd))
            = .error e) :
    extract_group_metadata records dk mk = .error e := by
  cases records with
  | nil => exact absurd rfl hne
  | cons r rest => simp [extract_group_metadata, hp, hk]

/-- C4: when extraction succeeds, it emits one output row per input row in
the same position; the row's data section is the input data section minus
the reserved field, and its metadata section is the pre-existing metadata
merged with `{group_id: raw group metadata's group_id}` — the merge holds
the (possibly overwritten) `group_id` key while every other pre-existing
metadata key is preserved. -/
theorem extract_rows_pointwise (records : List PyVal) (dk mk : String)
    (rows gtable : List PyVal)
    (h : extract_group_metadata records dk mk = .ok (rows, gtable)) :
    rows.length = records.length
    ∧ ∀ i (hi : i < records.length) (hi2 : i < rows.length),
        ∃ rentries items gentries mentries,
          records.get ⟨i, hi⟩ = .vdict rentries
          ∧ lookupStr rentries dk = some (.vdict items)
          ∧ lookupD items MATHESAR_GROUP_METADATA (.vdict []) = .vdict gentries
          ∧ lookupD rentries mk (.vdict []) = .vdict mentries
          ∧ rows.get ⟨i, hi2⟩ = .vdict (dictMerge []
              [(dk, .vdict (items.filter
                  (fun kv => kv.1 ≠ MATHESAR_GROUP_METADATA))),
               (mk, .vdict (dictMerge mentries
                  [(GROUP_ID_KEY, lookupD gentries GROUP_ID_KEY .vnone)]))])
          ∧ lookupStr (dictMerge mentries
                [(GROUP_ID_KEY, lookupD gentries GROUP_ID_KEY .vnone)])
              GROUP_ID_KEY = some (lookupD gentries GROUP_ID_KEY .vnone)
          ∧ (∀ k, k ≠ GROUP_ID_KEY →
              lookupStr (dictMerge mentries
                  [(GROUP_ID_KEY, lookupD gentries GROUP_ID_KEY .vnone)]) k
                = lookupStr mentries k) := by
  obtain ⟨hne, pieces, keyed, sortedPairs, hp, hrows, hk, hs, ht⟩ :=
    extract_ok_elim h
  subst hrows
  have hf := exceptMap_ok_iff.mp hp
  have hlen : records.length = pieces.length := hf.length_eq
  have hrl : (pieces.map Prod.fst).length = records.length := by
    rw [List.length_map, hlen]
  refine ⟨hrl, fun i hi hi2 => ?_⟩
  have hip : i < pieces.length := by omega
  have hpt : getRecordPieces dk mk (records.get ⟨i, hi⟩)
      = .ok (pieces.get ⟨i, hip⟩) :=
    (List.forall₂_iff_get.mp hf).2 i hi hip
  obtain ⟨rentries, items, gentries, mentries, hrec, hd, hgm, hpre, hout⟩ :=
    getRecordPieces_ok_elim hpt
  refine ⟨rentries, items, gentries, mentries, hrec, hd, hgm, hpre, ?_,
    lookupStr_dictSet_self mentries GROUP_ID_KEY _,
    fun k hkk => lookupStr_dictSet_ne mentries GROUP_ID_KEY _ k hkk⟩
  have hget : (pieces.map Prod.fst).get ⟨i, hi2⟩ = (pieces.get ⟨i, hip⟩).1 := by
    simp [List.get_eq_getElem, List.getElem_map]
  rw [hget, hout]

/-- C4 witness: the length conjunct instantiated at a concrete one-record
input carrying group metadata. -/
theorem extract_rows_pointwise_witness :
    ([PyVal.vdict [("data", .vdict [("a", .vint 1)]),
                   ("metadata", .vdict [("group_id", .vint 1)])]] : List PyVal).length
      = ([PyVal.vdict [("data", .vdict [("a", .vint 1),
          (MATHESAR_GROUP_METADATA, .vdict [("group_id", .vint 1)])])]] : List PyVal).length :=
  (extract_rows_pointwise
    [.vdict [("data", .vdict [("a", .vint 1),
        (MATHESAR_GROUP_METADATA, .vdict [("group_id", .vint 1)])])]]
    "data" "metadata"
    [.vdict [("data", .vdict [("a", .vint 1)]),
             ("metadata", .vdict [("group_id", .vint 1)])]]
    [.vdict [("group_id", .vint 1)]] rfl).1

lemma dictLit_two_ne {dk mk : String} (h : dk ≠ mk) (a b : PyVal) :
    dictMerge [] [(dk, a), (mk, b)] = [(dk, a), (mk, b)] := by
  simp [dictMerge, dictSet, h]

/-- Re-running `_get_record_pieces` on a row the extractor built (for
distinct data/metadata keys): the data section no longer holds the reserved
field, so the group piece is `None`. -/
lemma getRecordPieces_reapply {dk mk : String} (hkeys : dk ≠ mk)
    (dentries mentries : List (String × PyVal))
    (hres : lookupStr dentries MATHESAR_GROUP_METADATA = none) :
    getRecordPieces dk mk
        (.vdict (dictMerge [] [(dk, .vdict dentries), (mk, .vdict mentries)]))
      = .ok (.vdict (dictMerge []
          [(dk, .vdict (dentries.filter (fun kv => kv.1 ≠ MATHESAR_GROUP_METADATA))),
           (mk, .vdict (dictMerge mentries [(GROUP_ID_KEY, .vnone)]))]),
        .vnone) := by
  rw [dictLit_two_ne hkeys]
  simp [getRecordPieces, lookupStr, lookupD, hkeys, Ne.symm hkeys, hres]

/-- C2 (amended): applying `extract_group_metadata` to its own output rows
(for distinct data/metadata keys) is never a no-op: it raises `TypeError`,
because every output row lacks the reserved field, contributes a `None`
group piece, and the group-table sort's key function subscripts that
`None`. -/
theorem extract_reapply_raises (records : List PyVal) (dk mk : String)
    (hkeys : dk ≠ mk) (rows gtable : List PyVal)
    (h : extract_group_metadata records dk mk = .ok (rows, gtable)) :
    extract_group_metadata rows dk mk = .error .typeError := by
  obtain ⟨hne, pieces, keyed, sortedPairs, hp, hrows, hk, hs, ht⟩ :=
    extract_ok_elim h
  subst hrows
  have hlen := (exceptMap_ok_iff.mp hp).length_eq
  have hpieces_ne : pieces ≠ [] := by
    intro hc
    rw [hc] at hlen
    exact hne (List.length_eq_zero.mp hlen)
  have hne2 : pieces.map Prod.fst ≠ [] := by
    intro hc
    exact hpieces_ne (List.map_eq_nil_iff.mp hc)
  have hall : ∀ r ∈ pieces.map Prod.fst,
      ∃ out, getRecordPieces dk mk r = .ok out ∧ out.2 = PyVal.vnone := by
    intro r hr
    obtain ⟨piece, hpiece, hr1⟩ := List.mem_map.mp hr
    obtain ⟨a, ha, hfa⟩ := exceptMap_mem hp piece hpiece
    obtain ⟨rentries, items, gentries, mentries, hrec, hd, hgm, hpre, hout⟩ :=
      getRecordPieces_ok_elim hfa
    rw [← hr1, hout]
    exact ⟨_, getRecordPieces_reapply hkeys _ _ (lookupStr_filter_reserved items),
      rfl⟩
  obtain ⟨pieces₂, hp₂⟩ :=
    exceptMap_isOk_of_forall (fun a ha => (hall a ha).imp (fun out hout => hout.1))
  have hsnd : ∀ x ∈ pieces₂.map Prod.snd, x = PyVal.vnone := by
    intro x hx
    obtain ⟨q, hq, hq1⟩ := List.mem_map.mp hx
    obtain ⟨a, ha, hfa⟩ := exceptMap_mem hp₂ q hq
    obtain ⟨out, hout, hov⟩ := hall a ha
    rw [hfa] at hout
    simp only [Except.ok.injEq] at hout
    rw [← hq1, hout]
    exact hov
  have hne3 : pieces₂.map Prod.snd ≠ [] := by
    intro hc
    have : pieces₂ = [] := List.map_eq_nil_iff.mp hc
    rw [this] at hp₂
    have := (exceptMap_ok_iff.mp hp₂).length_eq
    simp only [List.length_nil] at this
    exact hne2 (List.length_eq_zero.mp (by simpa using this))
  have hded : dedupKeepFirst (pieces₂.map Prod.snd) = [PyVal.vnone] :=
    dedupKeepFirst_all_vnone hne3 hsnd
  apply extract_error_of_keyed hne2 hp₂
  rw [hded]
  rfl

/-- C2 witness: the amended claim applied to a concrete one-record input. -/
theorem extract_reapply_raises_witness :
    extract_group_metadata
        [.vdict [("data", .vdict [("a", .vint 1)]),
                 ("metadata", .vdict [("group_id", .vint 1)])]]
        "data" "metadata"
      = .error .typeError :=
  extract_reapply_raises
    [.vdict [("data", .vdict [("a", .vint 1),
        (MATHESAR_GROUP_METADATA, .vdict [("group_id", .vint 1)])])]]
    "data" "metadata" (by decide)
    [.vdict [("data", .vdict [("a", .vint 1)]),
             ("metadata", .vdict [("group_id", .vint 1)])]]
    [.vdict [("group_id", .vint 1)]] rfl

lemma table_perm_dedup {pieces keyed sortedPairs : List (PyVal × PyVal)}
    (hk : exceptMap groupSortKey (dedupKeepFirst (pieces.map Prod.snd)) = .ok keyed)
    (hs : sortPairs [] keyed = .ok sortedPairs) :
    (sortedPairs.map Prod.snd).Perm (dedupKeepFirst (pieces.map Prod.snd)) := by
  have h1 : sortedPairs.Perm keyed := by simpa using sortPairs_perm hs
  rw [← exceptMap_groupSortKey_snd hk]
  exact h1.map Prod.snd

lemma chain_map_of_chain_keyLe :
    ∀ {l : List (PyVal × PyVal)}, List.Chain' keyLe l →
      (∀ x ∈ l, pySubscriptStr x.2 GROUP_ID_KEY = .ok x.1) →
      List.Chain' (fun g₁ g₂ => ∃ a b,
        pySubscriptStr g₁ GROUP_ID_KEY = .ok a
        ∧ pySubscriptStr g₂ GROUP_ID_KEY = .ok b
        ∧ pyLt b a = .ok false) (l.map Prod.snd) := by
  intro l
  induction l with
  | nil => intro _ _; simp
  | cons p rest ih =>
      intro hc hP
      rw [List.map_cons]
      cases rest with
      | nil => simp
      | cons q rest2 =>
          rw [List.map_cons]
          refine List.chain'_cons.mpr ⟨?_, ?_⟩
          · exact ⟨p.1, q.1, hP p (List.mem_cons_self _ _),
              hP q (List.mem_cons_of_mem _ (List.mem_cons_self _ _)),
              (List.chain'_cons.mp hc).1⟩
          · have hmap := ih (List.chain'_cons.mp hc).2
              (fun x hx => hP x (List.mem_cons_of_mem _ hx))
            rw [List.map_cons] at hmap
            exact hmap

/-- C3 (amended): the deduplicated group table is deterministic up to the
serialization-based deduplication the code actually performs.  Two raw
group objects collapse iff they are structurally identical in the same key
order (the table has no duplicates); the table's content as a set is
invariant under a permutation of the input rows; and the table is emitted
in ascending `group_id` order (adjacent entries' `group_id` values never
decrease under Python value comparison). -/
theorem group_table_deterministic (recs₁ recs₂ : List PyVal) (dk mk : String)
    (hperm : recs₁.Perm recs₂) (rows₁ t₁ rows₂ t₂ : List PyVal)
    (h₁ : extract_group_metadata recs₁ dk mk = .ok (rows₁, t₁))
    (h₂ : extract_group_metadata recs₂ dk mk = .ok (rows₂, t₂)) :
    t₁.Perm t₂ ∧ t₁.Nodup
    ∧ List.Chain' (fun g₁ g₂ => ∃ a b,
        pySubscriptStr g₁ GROUP_ID_KEY = .ok a
        ∧ pySubscriptStr g₂ GROUP_ID_KEY = .ok b
        ∧ pyLt b a = .ok false) t₁ := by
  obtain ⟨hne₁, p₁, k₁, s₁, hp₁, hr₁, hk₁, hs₁, ht₁⟩ := extract_ok_elim h₁
  obtain ⟨hne₂, p₂, k₂v, s₂, hp₂, hr₂, hk₂, hs₂, ht₂⟩ := extract_ok_elim h₂
  subst ht₁
  subst ht₂
  have hdp : (dedupKeepFirst (p₁.map Prod.snd)).Perm
      (dedupKeepFirst (p₂.map Prod.snd)) :=
    dedupKeepFirst_perm ((exceptMap_perm hperm hp₁ hp₂).map Prod.snd)
  have ht₁d := table_perm_dedup hk₁ hs₁
  have ht₂d := table_perm_dedup hk₂ hs₂
  refine ⟨ht₁d.trans (hdp.trans ht₂d.symm), ?_, ?_⟩
  · exact ht₁d.nodup_iff.mpr (nodup_dedupKeepFirst _)
  · have hchain : List.Chain' keyLe s₁ := sortPairs_chain List.chain'_nil hs₁
    have hmem : ∀ x ∈ s₁, pySubscriptStr x.2 GROUP_ID_KEY = .ok x.1 := by
      intro x hx
      have hxk : x ∈ k₁ := by
        have := (sortPairs_perm hs₁).mem_iff.mp hx
        simpa using this
      obtain ⟨g, hg, hfg⟩ := exceptMap_mem hk₁ x hxk
      obtain ⟨hx2, hx3⟩ := groupSortKey_ok hfg
      rw [hx2]
      exact hx3
    exact chain_map_of_chain_keyLe hchain hmem

/-- C3 (amended) witness: the group tables of the two input orders of the
counterexample pair are permutations of each other. -/
theorem group_table_deterministic_witness :
    ([PyVal.vdict [("group_id", .vint 1), ("count", .vint 2)],
      PyVal.vdict [("count", .vint 2), ("group_id", .vint 1)]] : List PyVal).Perm
      [PyVal.vdict [("count", .vint 2), ("group_id", .vint 1)],
       PyVal.vdict [("group_id", .vint 1), ("count", .vint 2)]] :=
  (group_table_deterministic
    [.vdict [("data", .vdict [("x", .vint 1),
        (MATHESAR_GROUP_METADATA,
          .vdict [("group_id", .vint 1), ("count", .vint 2)])])],
     .vdict [("data", .vdict [("x", .vint 2),
        (MATHESAR_GROUP_METADATA,
          .vdict [("count", .vint 2), ("group_id", .vint 1)])])]]
    [.vdict [("data", .vdict [("x", .vint 2),
        (MATHESAR_GROUP_METADATA,
          .vdict [("count", .vint 2), ("group_id", .vint 1)])])],
     .vdict [("data", .vdict [("x", .vint 1),
        (MATHESAR_GROUP_METADATA,
          .vdict [("group_id", .vint 1), ("count", .vint 2)])])]]
    "data" "metadata" (by decide)
    [.vdict [("data", .vdict [("x", .vint 1)]),
             ("metadata", .vdict [("group_id", .vint 1)])],
     .vdict [("data", .vdict [("x", .vint 2)]),
             ("metadata", .vdict [("group_id", .vint 1)])]]
    [.vdict [("group_id", .vint 1), ("count", .vint 2)],
     .vdict [("count", .vint 2), ("group_id", .vint 1)]]
    [.vdict [("data", .vdict [("x", .vint 2)]),
             ("metadata", .vdict [("group_id", .vint 1)])],
     .vdict [("data", .vdict [("x", .vint 1)]),
             ("metadata", .vdict [("group_id", .vint 1)])]]
    [.vdict [("count", .vint 2), ("group_id", .vint 1)],
     .vdict [("group_id", .vint 1), ("count", .vint 2)]]
    rfl rfl).1
